import Mathlib

/-!
Verification of the Noel repository: a gesture-controlled particle Christmas
tree.  The hand-tracking module (`HandTracker` class) is embedded in the
`Noel` namespace over exact rationals; the scene state machine and morph
engine from `christmas-tree/main.js` follow.  JavaScript numbers are modelled
as `ℚ` (all constants in the source are decimal literals), array indices as
`ℕ`/`ℤ`, and the trigonometric functions `Math.sin`/`Math.cos` — whose exact
values never matter for the claims below — are passed as explicit function
parameters.
-/

namespace Noel

/-- One normalized hand landmark, a point with x/y in image coordinates. -/
structure Pt where
  x : ℚ
  y : ℚ
deriving DecidableEq

/-- A landmark frame: the detector delivers an array of 21 anatomically
indexed points (wrist = 0, thumb tip = 4, index tip = 8, ...); the source only
ever reads the fixed indices 0–20, so the array is modelled as a function from
indices to points. -/
def Frame := ℕ → Pt

/-- The gesture labels produced by `detectGesture`.  `openHand` stands for the
string `'open'` of the source (`open` is a Lean keyword). -/
inductive Gesture where
  | none
  | fist
  | openHand
  | ok
deriving DecidableEq, Repr

/-- Embedding of `HandTracker.getFingersExtended`: one boolean per finger, in
the order thumb, index, middle, ring, pinky.  The thumb compares x of tip (4)
and IP joint (3); the other fingers compare y of tip and PIP. -/
def getFingersExtended (landmarks : Frame) : List Bool :=
  let thumbExtended := decide ((landmarks 4).x < (landmarks 3).x)
  let fingerTips : List ℕ := [8, 12, 16, 20]
  let fingerPips : List ℕ := [6, 10, 14, 18]
  thumbExtended ::
    List.zipWith (fun tip pip => decide ((landmarks tip).y < (landmarks pip).y))
      fingerTips fingerPips

/-- Embedding of `HandTracker.isOKGesture`.  The source compares
`Math.sqrt(dx*dx + dy*dy) < 0.08`; since both sides are nonnegative this is
equivalent to comparing the squared distance with `0.08^2`, which avoids
square roots over `ℚ`. -/
def isOKGesture (landmarks : Frame) (fingersExtended : List Bool) : Bool :=
  let thumbTip := landmarks 4
  let indexTip := landmarks 8
  let sqDistance := (thumbTip.x - indexTip.x)^2 + (thumbTip.y - indexTip.y)^2
  let isTouching := decide (sqDistance < (8/100)^2)
  let otherFingersExtended :=
    fingersExtended.getD 2 false && fingersExtended.getD 3 false &&
      fingersExtended.getD 4 false
  isTouching && otherFingersExtended

/-- Embedding of `HandTracker.detectGesture`: OK first, then fist
(`extendedCount <= 1`), then open (`extendedCount >= 4`), else none. -/
def detectGesture (landmarks : Frame) : Gesture :=
  let fingersExtended := getFingersExtended landmarks
  let extendedCount := (fingersExtended.filter (fun f => f)).length
  if isOKGesture landmarks fingersExtended then Gesture.ok
  else if extendedCount ≤ 1 then Gesture.fist
  else if 4 ≤ extendedCount then Gesture.openHand
  else Gesture.none

/-- Shorthand for the number of extended fingers computed in `detectGesture`. -/
def extendedCount (landmarks : Frame) : ℕ :=
  ((getFingersExtended landmarks).filter (fun f => f)).length

/-- C1: whenever the squared thumb-tip/index-tip distance is below `0.08^2`
(equivalently the Euclidean distance is below 0.08) and the middle, ring and
pinky fingers are extended in the sense of the source (tip.y < PIP.y), the
classifier returns `ok` — no assumption is made about the thumb or index
extended flags nor about the extended-finger count. -/
theorem detectGesture_ok_of_touch_and_extended (f : Frame)
    (hdist : ((f 4).x - (f 8).x)^2 + ((f 4).y - (f 8).y)^2 < (8/100)^2)
    (hmiddle : (f 12).y < (f 10).y)
    (hring : (f 16).y < (f 14).y)
    (hpinky : (f 20).y < (f 18).y) :
    detectGesture f = Gesture.ok := by
  have hok : isOKGesture f (getFingersExtended f) = true := by
    simp [isOKGesture, getFingersExtended, hdist, hmiddle, hring, hpinky]
  simp [detectGesture, hok]

/-- A concrete frame forming the OK sign: thumb tip and index tip coincide and
the middle, ring and pinky tips (12, 16, 20) sit above their PIPs. -/
def okFrame : Frame := fun i =>
  if i = 12 ∨ i = 16 ∨ i = 20 then { x := 1/2, y := 0 }
  else { x := 1/2, y := 1 }

theorem detectGesture_ok_witness :
    (((okFrame 4).x - (okFrame 8).x)^2 + ((okFrame 4).y - (okFrame 8).y)^2
        < (8/100)^2 ∧
      (okFrame 12).y < (okFrame 10).y ∧ (okFrame 16).y < (okFrame 14).y ∧
      (okFrame 20).y < (okFrame 18).y) ∧
    detectGesture okFrame = Gesture.ok :=
  ⟨⟨by norm_num [okFrame], by norm_num [okFrame], by norm_num [okFrame],
      by norm_num [okFrame]⟩,
    detectGesture_ok_of_touch_and_extended okFrame (by norm_num [okFrame])
      (by norm_num [okFrame]) (by norm_num [okFrame]) (by norm_num [okFrame])⟩

/-- C2: on frames that do not satisfy the OK condition the classifier
dispatches on the extended-finger count: at most 1 gives `fist`, at least 4
gives `open`, 2 or 3 give `none`; and the fist and open thresholds can never
both hold. -/
theorem detectGesture_count_dispatch (f : Frame)
    (hnotOK : isOKGesture f (getFingersExtended f) = false) :
    (extendedCount f ≤ 1 → detectGesture f = Gesture.fist) ∧
    (4 ≤ extendedCount f → detectGesture f = Gesture.openHand) ∧
    (extendedCount f = 2 ∨ extendedCount f = 3 → detectGesture f = Gesture.none) ∧
    ¬ (extendedCount f ≤ 1 ∧ 4 ≤ extendedCount f) := by
  have hd : detectGesture f =
      (if extendedCount f ≤ 1 then Gesture.fist
       else if 4 ≤ extendedCount f then Gesture.openHand else Gesture.none) := by
    simp [detectGesture, extendedCount, hnotOK]
  refine ⟨fun h => ?_, fun h => ?_, fun h => ?_, fun h => by omega⟩
  · rw [hd, if_pos h]
  · rw [hd, if_neg (by omega), if_pos h]
  · rw [hd, if_neg (by omega), if_neg (by omega)]

/-- A concrete closed-hand frame: every landmark at the same point, so no
finger is extended and `extendedCount = 0`. -/
def fistFrame : Frame := fun _ => { x := 1/2, y := 1/2 }

/-- The smoothing window capacity, `this.historySize = 5`. -/
def historySize : ℕ := 5

/-- The history update at the top of `updateGesture`: push the new label,
then drop the oldest entry (`shift()`) when the capacity is exceeded. -/
def pushHistory (history : List Gesture) (g : Gesture) : List Gesture :=
  if historySize < (history ++ [g]).length then (history ++ [g]).tail
  else history ++ [g]

/-- The keys of the `gestureCounts` object built in `updateGesture`:
JavaScript object keys enumerate in insertion order, i.e. in order of first
occurrence in the history; `seen` accumulates the keys already inserted. -/
def countKeysAux (seen : List Gesture) : List Gesture → List Gesture
  | [] => []
  | g :: rest =>
    if g ∈ seen then countKeysAux seen rest
    else g :: countKeysAux (g :: seen) rest

/-- Keys of `gestureCounts` for a given history, in insertion order. -/
def countKeys (history : List Gesture) : List Gesture :=
  countKeysAux [] history

/-- The body of the `for (const [g, count] of Object.entries(gestureCounts))`
loop: replace the running `(maxCount, smoothedGesture)` pair when the entry's
count is strictly larger.  The count stored for key `g` is the number of
occurrences of `g` in the history. -/
def selScan (history : List Gesture) (acc : ℕ × Gesture) (g : Gesture) :
    ℕ × Gesture :=
  if acc.1 < history.count g then (history.count g, g) else acc

/-- The majority-vote scan of `updateGesture`, starting from
`maxCount = 0, smoothedGesture = 'none'`. -/
def selectSmoothed (history : List Gesture) : ℕ × Gesture :=
  (countKeys history).foldl (selScan history) (0, Gesture.none)

/-- The state of the `HandTracker` smoother: the ring-buffer history and the
last smoothed gesture (`this.currentGesture`). -/
structure Tracker where
  gestureHistory : List Gesture
  currentGesture : Gesture
deriving DecidableEq

/-- Embedding of `HandTracker.updateGesture`: push the raw label, recompute
the majority label, and emit an `onGestureChange` event (the `Option` result)
exactly when the majority label differs from `currentGesture`. -/
def updateGesture (t : Tracker) (g : Gesture) : Tracker × Option Gesture :=
  let history := pushHistory t.gestureHistory g
  let smoothedGesture := (selectSmoothed history).2
  if smoothedGesture ≠ t.currentGesture then
    ({ gestureHistory := history, currentGesture := smoothedGesture },
      some smoothedGesture)
  else
    ({ gestureHistory := history, currentGesture := t.currentGesture },
      Option.none)

/-- Tracker state at construction: empty history, `currentGesture = 'none'`. -/
def initTracker : Tracker :=
  { gestureHistory := [], currentGesture := Gesture.none }

/-- Feeding a stream of raw per-frame labels through the smoother. -/
def feed (t : Tracker) (gs : List Gesture) : Tracker :=
  gs.foldl (fun t g => (updateGesture t g).1) t

theorem mem_countKeysAux (a : Gesture) :
    ∀ (l seen : List Gesture), a ∈ countKeysAux seen l ↔ a ∈ l ∧ a ∉ seen := by
  intro l
  induction l with
  | nil => intro seen; simp [countKeysAux]
  | cons g rest ih =>
    intro seen
    by_cases hg : g ∈ seen
    · rw [countKeysAux, if_pos hg, ih]
      constructor
      · rintro ⟨h1, h2⟩; exact ⟨List.mem_cons_of_mem _ h1, h2⟩
      · rintro ⟨h1, h2⟩
        rcases List.mem_cons.mp h1 with rfl | h1
        · exact absurd hg h2
        · exact ⟨h1, h2⟩
    · rw [countKeysAux, if_neg hg]
      simp only [List.mem_cons, ih]
      constructor
      · rintro (rfl | ⟨h1, h2⟩)
        · exact ⟨Or.inl rfl, hg⟩
        · have h2' : a ≠ g ∧ a ∉ seen := by simpa using h2
          exact ⟨Or.inr h1, h2'.2⟩
      · rintro ⟨rfl | h1, h2⟩
        · exact Or.inl rfl
        · by_cases hag : a = g
          · exact Or.inl hag
          · exact Or.inr ⟨h1, by simp [hag, h2]⟩

theorem mem_countKeys (a : Gesture) (history : List Gesture) :
    a ∈ countKeys history ↔ a ∈ history := by
  rw [countKeys, mem_countKeysAux]
  simp

/-- Characterisation of the majority scan: either no entry beats the initial
accumulator, or the result is the first entry of the key list achieving the
maximal count — entries before it count strictly less, entries after it count
at most as much. -/
theorem selScan_foldl_char (history : List Gesture) :
    ∀ (L : List Gesture) (acc : ℕ × Gesture),
      (L.foldl (selScan history) acc = acc ∧
        ∀ g ∈ L, history.count g ≤ acc.1) ∨
      (∃ L₁ L₂, L = L₁ ++ (L.foldl (selScan history) acc).2 :: L₂ ∧
        (L.foldl (selScan history) acc).1 =
          history.count (L.foldl (selScan history) acc).2 ∧
        acc.1 < (L.foldl (selScan history) acc).1 ∧
        (∀ g ∈ L₁, history.count g < (L.foldl (selScan history) acc).1) ∧
        (∀ g ∈ L₂, history.count g ≤ (L.foldl (selScan history) acc).1)) := by
  intro L
  induction L with
  | nil => intro acc; left; exact ⟨rfl, by simp⟩
  | cons x L ih =>
    intro acc
    rw [List.foldl_cons]
    by_cases hx : acc.1 < history.count x
    · rw [show selScan history acc x = (history.count x, x) from
        if_pos hx]
      rcases ih (history.count x, x) with ⟨heq, hle⟩ |
        ⟨L₁, L₂, hsplit, hcnt, hlt, hpre, hpost⟩
      · right
        refine ⟨[], L, ?_, ?_, ?_, by simp, ?_⟩
        · simp [heq]
        · rw [heq]
        · rw [heq]; exact hx
        · intro g hg; rw [heq]; exact hle g hg
      · right
        refine ⟨x :: L₁, L₂, ?_, hcnt, ?_, ?_, hpost⟩
        · rw [List.cons_append]; exact congrArg (List.cons x) hsplit
        · exact lt_trans hx hlt
        · intro g hg
          rcases List.mem_cons.mp hg with rfl | hg
          · exact hlt
          · exact hpre g hg
    · rw [show selScan history acc x = acc from if_neg hx]
      rcases ih acc with ⟨heq, hle⟩ |
        ⟨L₁, L₂, hsplit, hcnt, hlt, hpre, hpost⟩
      · left
        refine ⟨heq, ?_⟩
        intro g hg
        rcases List.mem_cons.mp hg with rfl | hg
        · exact Nat.le_of_not_lt hx
        · exact hle g hg
      · right
        refine ⟨x :: L₁, L₂, ?_, hcnt, hlt, ?_, hpost⟩
        · rw [List.cons_append]; exact congrArg (List.cons x) hsplit
        · intro g hg
          rcases List.mem_cons.mp hg with rfl | hg
          · exact lt_of_le_of_lt (Nat.le_of_not_lt hx) hlt
          · exact hpre g hg

/-- Keys listed by `countKeysAux` respect the order of first occurrence: if
`a` precedes `b` in the key list, the first occurrence of `a` in the scanned
list is no later than that of `b`. -/
theorem countKeysAux_order :
    ∀ (h : List Gesture) (seen L₁ L₂ : List Gesture) (a b : Gesture),
      countKeysAux seen h = L₁ ++ a :: L₂ → b ∈ L₂ →
      h.indexOf a ≤ h.indexOf b := by
  intro h
  induction h with
  | nil =>
    intro seen L₁ L₂ a b hsplit hb
    rw [countKeysAux] at hsplit
    exact absurd hsplit.symm (List.append_ne_nil_of_right_ne_nil _ (by simp))
  | cons x t ih =>
    intro seen L₁ L₂ a b hsplit hb
    by_cases hx : x ∈ seen
    · rw [countKeysAux, if_pos hx] at hsplit
      have ha : a ∈ countKeysAux seen t := by
        rw [hsplit]; exact List.mem_append_right _ (List.mem_cons_self _ _)
      have hbmem : b ∈ countKeysAux seen t := by
        rw [hsplit]
        exact List.mem_append_right _ (List.mem_cons_of_mem _ hb)
      have hax : x ≠ a := by
        intro hxa
        exact ((mem_countKeysAux a t seen).mp ha).2 (hxa ▸ hx)
      have hbx : x ≠ b := by
        intro hxb
        exact ((mem_countKeysAux b t seen).mp hbmem).2 (hxb ▸ hx)
      rw [List.indexOf_cons_ne t hax, List.indexOf_cons_ne t hbx]
      exact Nat.succ_le_succ (ih seen L₁ L₂ a b hsplit hb)
    · rw [countKeysAux, if_neg hx] at hsplit
      cases L₁ with
      | nil =>
        simp only [List.nil_append, List.cons.injEq] at hsplit
        obtain ⟨rfl, hL₂⟩ := hsplit
        rw [List.indexOf_cons_self]
        exact Nat.zero_le _
      | cons c L₁ =>
        simp only [List.cons_append, List.cons.injEq] at hsplit
        obtain ⟨hxc, hrest⟩ := hsplit
        have ha : a ∈ countKeysAux (x :: seen) t := by
          rw [hrest]; exact List.mem_append_right _ (List.mem_cons_self _ _)
        have hbmem : b ∈ countKeysAux (x :: seen) t := by
          rw [hrest]
          exact List.mem_append_right _ (List.mem_cons_of_mem _ hb)
        have hax : x ≠ a := by
          intro hca
          exact ((mem_countKeysAux a t (x :: seen)).mp ha).2
            (hca ▸ List.mem_cons_self _ _)
        have hbx : x ≠ b := by
          intro hcb
          exact ((mem_countKeysAux b t (x :: seen)).mp hbmem).2
            (hcb ▸ List.mem_cons_self _ _)
        rw [List.indexOf_cons_ne t hax, List.indexOf_cons_ne t hbx]
        exact Nat.succ_le_succ (ih (x :: seen) L₁ L₂ a b hrest hb)

theorem selectSmoothed_max (history : List Gesture) (hne : history ≠ []) :
    (∀ l, history.count l ≤ history.count (selectSmoothed history).2) ∧
    (∀ l, l ∈ history →
      history.count l = history.count (selectSmoothed history).2 →
      history.indexOf (selectSmoothed history).2 ≤ history.indexOf l) := by
  obtain ⟨c, t, rfl⟩ := List.exists_cons_of_ne_nil hne
  rcases selScan_foldl_char (c :: t) (countKeys (c :: t)) (0, Gesture.none) with
    ⟨heq, hle⟩ | ⟨L₁, L₂, hsplit, hcnt, _, hpre, hpost⟩
  · exfalso
    have hc : c ∈ countKeys (c :: t) :=
      (mem_countKeys c _).mpr (List.mem_cons_self _ _)
    have := hle c hc
    simp [List.count_cons_self] at this
  · have hsel :
        (selectSmoothed (c :: t)).1 = (c :: t).count (selectSmoothed (c :: t)).2 ∧
        countKeys (c :: t) = L₁ ++ (selectSmoothed (c :: t)).2 :: L₂ ∧
        (∀ g ∈ L₁, (c :: t).count g < (selectSmoothed (c :: t)).1) ∧
        (∀ g ∈ L₂, (c :: t).count g ≤ (selectSmoothed (c :: t)).1) :=
      ⟨hcnt, hsplit, hpre, hpost⟩
    obtain ⟨hcnt', hsplit', hpre', hpost'⟩ := hsel
    constructor
    · intro l
      by_cases hl : l ∈ (c :: t)
      · have hlk : l ∈ countKeys (c :: t) := (mem_countKeys l _).mpr hl
        rw [hsplit'] at hlk
        rcases List.mem_append.mp hlk with h1 | h1
        · have := hpre' l h1; omega
        · rcases List.mem_cons.mp h1 with rfl | h1
          · exact le_refl _
          · have := hpost' l h1; omega
      · rw [List.count_eq_zero_of_not_mem hl]
        exact Nat.zero_le _
    · intro l hl hcount
      have hlk : l ∈ countKeys (c :: t) := (mem_countKeys l _).mpr hl
      rw [hsplit'] at hlk
      rcases List.mem_append.mp hlk with h1 | h1
      · have := hpre' l h1; omega
      · rcases List.mem_cons.mp h1 with rfl | h1
        · exact le_refl _
        · exact countKeysAux_order (c :: t) [] L₁ L₂ _ l hsplit' h1

/-- C5: on each new raw label the smoother selects, over the updated history,
a label of strictly maximal frequency, breaking ties in favour of the label
with the earliest first occurrence in the history, and emits a change event
exactly when this smoothed label differs from the previously held one; in
particular feeding `[fist, fist, open, fist, fist]` to a fresh tracker yields
the smoothed label `fist`. -/
theorem updateGesture_majority (t : Tracker) (g : Gesture) :
    (∀ l, (pushHistory t.gestureHistory g).count l ≤
      (pushHistory t.gestureHistory g).count
        (selectSmoothed (pushHistory t.gestureHistory g)).2) ∧
    (∀ l, l ∈ pushHistory t.gestureHistory g →
      (pushHistory t.gestureHistory g).count l =
        (pushHistory t.gestureHistory g).count
          (selectSmoothed (pushHistory t.gestureHistory g)).2 →
      (pushHistory t.gestureHistory g).indexOf
          (selectSmoothed (pushHistory t.gestureHistory g)).2 ≤
        (pushHistory t.gestureHistory g).indexOf l) ∧
    ((updateGesture t g).2 =
        some (selectSmoothed (pushHistory t.gestureHistory g)).2 ↔
      (selectSmoothed (pushHistory t.gestureHistory g)).2 ≠ t.currentGesture) ∧
    ((updateGesture t g).2 = Option.none ↔
      (selectSmoothed (pushHistory t.gestureHistory g)).2 = t.currentGesture) ∧
    (feed initTracker [Gesture.fist, Gesture.fist, Gesture.openHand,
        Gesture.fist, Gesture.fist]).currentGesture = Gesture.fist := by
  have hne : pushHistory t.gestureHistory g ≠ [] := by
    rw [pushHistory]
    split
    · rename_i hlong
      intro hnil
      have h1 := congrArg List.length hnil
      rw [List.length_tail] at h1
      simp at h1
      simp [historySize, h1] at hlong
    · simp
  obtain ⟨hmax, htie⟩ := selectSmoothed_max _ hne
  refine ⟨hmax, htie, ?_, ?_, by decide⟩
  · rw [updateGesture]
    split
    · simp_all
    · simp_all
  · rw [updateGesture]
    split
    · simp_all
    · simp_all

end Noel

namespace Noel
inductive DState where
  | tree
  | exploded
  | zoomed
deriving DecidableEq, Repr

/-- The numeric fields of the `CONFIG` object of `main.js` that feed the
modelled logic (the color palette is purely visual and never read by it). -/
structure Config where
  particleCount : ℕ
  treeHeight : ℚ
  treeRadius : ℚ
  transitionSpeed : ℚ
  rotationSpeed : ℚ
  autoRotate : Bool
  autoRotateSpeed : ℚ
  ornamentCount : ℕ
  lightsCount : ℕ

/-- The `CONFIG` constant of `main.js`. -/
def CONFIG : Config :=
  { particleCount := 10000
    treeHeight := 12
    treeRadius := 7
    transitionSpeed := 6/100
    rotationSpeed := 8/1000
    autoRotate := true
    autoRotateSpeed := 2/1000
    ornamentCount := 20
    lightsCount := 80 }

/-- Embedding of the `lerp` utility of `main.js`. -/
def lerp (a b t : ℚ) : ℚ := a + (b - a) * t

/-- Embedding of the `easeInOutCubic` utility of `main.js`. -/
def easeInOutCubic (t : ℚ) : ℚ :=
  if t < 1/2 then 4 * t * t * t else 1 - (-2 * t + 2)^3 / 2

/-- The morph-progress update performed at the top of each `animate` tick:
`tree` raises `morphProgress` by `CONFIG.transitionSpeed` capped at 1,
`exploded` lowers it by the same step floored at 0, `zoomed` leaves it
unchanged. -/
def animateMorphStep (currentState : DState) (morphProgress : ℚ) : ℚ :=
  match currentState with
  | DState.tree => min 1 (morphProgress + CONFIG.transitionSpeed)
  | DState.exploded => max 0 (morphProgress - CONFIG.transitionSpeed)
  | DState.zoomed => morphProgress

theorem animateMorphStep_mem_Icc {mp : ℚ} (st : DState)
    (h0 : 0 ≤ mp) (h1 : mp ≤ 1) :
    0 ≤ animateMorphStep st mp ∧ animateMorphStep st mp ≤ 1 := by
  have hspeed : (0 : ℚ) ≤ CONFIG.transitionSpeed := by norm_num [CONFIG]
  cases st with
  | tree =>
    exact ⟨le_min (by norm_num) (by linarith), min_le_left _ _⟩
  | exploded =>
    exact ⟨le_max_left _ _, max_le (by norm_num) (by linarith)⟩
  | zoomed => exact ⟨h0, h1⟩

/-- C3: for any starting `morphProgress` in `[0,1]` and any sequence of
display states seen at successive render ticks, the morph progress stays in
`[0,1]`; and a single tick behaves exactly as claimed: in `tree` it adds the
fixed step `CONFIG.transitionSpeed` clamping at 1, in `exploded` it subtracts
the same step clamping at 0, and in `zoomed` it is left unchanged. -/
theorem morphProgress_clamped (states : List DState) (mp : ℚ)
    (h0 : 0 ≤ mp) (h1 : mp ≤ 1) :
    (0 ≤ states.foldl (fun p st => animateMorphStep st p) mp ∧
      states.foldl (fun p st => animateMorphStep st p) mp ≤ 1) ∧
    (∀ p : ℚ,
      (animateMorphStep DState.tree p =
        if p + CONFIG.transitionSpeed ≤ 1 then p + CONFIG.transitionSpeed else 1) ∧
      (animateMorphStep DState.exploded p =
        if 0 ≤ p - CONFIG.transitionSpeed then p - CONFIG.transitionSpeed else 0) ∧
      animateMorphStep DState.zoomed p = p) := by
  constructor
  · induction states generalizing mp with
    | nil => exact ⟨h0, h1⟩
    | cons st rest ih =>
      have hstep := animateMorphStep_mem_Icc st h0 h1
      simpa using ih (animateMorphStep st mp) hstep.1 hstep.2
  · intro p
    refine ⟨?_, ?_, rfl⟩
    · rcases le_or_lt (p + CONFIG.transitionSpeed) 1 with h | h
      · rw [if_pos h, animateMorphStep, min_eq_right h]
      · rw [if_neg (not_le.mpr h), animateMorphStep,
          min_eq_left (le_of_lt h)]
    · rcases le_or_lt 0 (p - CONFIG.transitionSpeed) with h | h
      · rw [if_pos h, animateMorphStep, max_eq_right h]
      · rw [if_neg (not_le.mpr h), animateMorphStep,
          max_eq_left (le_of_lt h)]

theorem morphProgress_clamped_witness :
    (0 ≤ (1 : ℚ) ∧ (1 : ℚ) ≤ 1) ∧
    (0 ≤ [DState.exploded, DState.exploded, DState.tree,
        DState.zoomed].foldl (fun p st => animateMorphStep st p) (1 : ℚ) ∧
      [DState.exploded, DState.exploded, DState.tree,
        DState.zoomed].foldl (fun p st => animateMorphStep st p) (1 : ℚ) ≤ 1) :=
  ⟨⟨by norm_num, by norm_num⟩,
    (morphProgress_clamped [DState.exploded, DState.exploded, DState.tree,
        DState.zoomed] 1 (by norm_num) (by norm_num)).1⟩

/-- A 3-component position, as stored in the per-particle position arrays. -/
structure Vec3 where
  x : ℚ
  y : ℚ
  z : ℚ
deriving DecidableEq, Inhabited

/-- Embedding of `updateParticlePositions`: the loop recomputes, for every
particle index, the current position as the eased interpolation between its
exploded endpoint (`originalPositions[i]`) and its tree endpoint
(`treePositions[i]`); the two arrays have one entry per particle. -/
def updateParticlePositions (originalPositions treePositions : List Vec3)
    (morphProgress : ℚ) : List Vec3 :=
  List.zipWith
    (fun exploded tree =>
      let t := easeInOutCubic morphProgress
      { x := lerp exploded.x tree.x t
        y := lerp exploded.y tree.y t
        z := lerp exploded.z tree.z t })
    originalPositions treePositions

theorem zipWith_getD {α : Type} (f : α → α → α) (d : α) :
    ∀ (as bs : List α) (i : ℕ), i < as.length → i < bs.length →
      (List.zipWith f as bs).getD i d = f (as.getD i d) (bs.getD i d) := by
  intro as
  induction as with
  | nil => intro bs i h _; simp at h
  | cons a as ih =>
    intro bs i h1 h2
    cases bs with
    | nil => simp at h2
    | cons b bs =>
      cases i with
      | zero => simp
      | succ j =>
        simp only [List.zipWith_cons_cons, List.getD_cons_succ]
        exact ih bs j (by simpa using h1) (by simpa using h2)

/-- C6: on every tick, each particle's rendered position equals
`lerp(explodedEndpoint, treeEndpoint, ease(morphProgress))` componentwise,
where the endpoints are the fixed per-index entries of the setup arrays, and
the ease curve is `4t³` below `1/2` and `1 − (−2t+2)³/2` from `1/2` on. -/
theorem updateParticlePositions_spec (originalPositions treePositions : List Vec3)
    (morphProgress : ℚ) (i : ℕ)
    (h1 : i < originalPositions.length) (h2 : i < treePositions.length) :
    ((updateParticlePositions originalPositions treePositions
        morphProgress).getD i default =
      { x := lerp (originalPositions.getD i default).x
            (treePositions.getD i default).x (easeInOutCubic morphProgress)
        y := lerp (originalPositions.getD i default).y
            (treePositions.getD i default).y (easeInOutCubic morphProgress)
        z := lerp (originalPositions.getD i default).z
            (treePositions.getD i default).z (easeInOutCubic morphProgress) }) ∧
    (∀ t : ℚ, easeInOutCubic t =
      if t < 1/2 then 4 * t^3 else 1 - (-2 * t + 2)^3 / 2) := by
  constructor
  · exact zipWith_getD _ default originalPositions treePositions i h1 h2
  · intro t
    by_cases h : t < 1/2
    · rw [easeInOutCubic, if_pos h, if_pos h]; ring
    · rw [easeInOutCubic, if_neg h, if_neg h]

theorem updateParticlePositions_spec_witness :
    ((0 : ℕ) < ([{ x := 0, y := 0, z := 0 }] : List Vec3).length ∧
      (0 : ℕ) < ([{ x := 2, y := 4, z := 6 }] : List Vec3).length) ∧
    (updateParticlePositions [{ x := 0, y := 0, z := 0 }]
        [{ x := 2, y := 4, z := 6 }] (1/2)).getD 0 default =
      { x := lerp 0 2 (easeInOutCubic (1/2))
        y := lerp 0 4 (easeInOutCubic (1/2))
        z := lerp 0 6 (easeInOutCubic (1/2)) } :=
  ⟨⟨by norm_num, by norm_num⟩, by
    have h := (updateParticlePositions_spec [{ x := 0, y := 0, z := 0 }]
      [{ x := 2, y := 4, z := 6 }] (1/2) 0 (by norm_num) (by norm_num)).1
    simpa using h⟩

theorem updateGesture_majority_witness :
    (feed initTracker [Gesture.fist, Gesture.fist, Gesture.openHand,
        Gesture.fist, Gesture.fist]).currentGesture = Gesture.fist :=
  (updateGesture_majority initTracker Gesture.none).2.2.2.2

/-- An image sprite of `main.js`: its `userData.baseAngle` (absent until the
texture load callback populates it), position, material opacity, scale,
`userData.originalScale` and `userData.isSelected` flag. -/
structure Sprite where
  baseAngle : Option ℚ
  posX : ℚ
  posY : ℚ
  posZ : ℚ
  opacity : ℚ
  scale : ℚ
  originalScale : ℚ
  isSelected : Bool
deriving DecidableEq

/-- `hiddenRadius` constant of `updateImageVisibility` (and `setupImages`). -/
def hiddenRadius : ℚ := 1/2

/-- `orbitRadius` constant of `updateImageVisibility` (and `setupImages`). -/
def orbitRadius : ℚ := 8

/-- The `z > maxZ` comparison of `updateImageVisibility`, where `maxZ` starts
at `-Infinity` (modelled as `Option.none`, exceeded by every finite value). -/
def gtMaxZ (z : ℚ) (maxZ : Option ℚ) : Bool :=
  match maxZ with
  | Option.none => true
  | some m => decide (m < z)

/-- Body of the first `forEach` of `updateImageVisibility`: skip sprites with
no base angle; otherwise reposition the sprite on its orbit circle and update
the running `(maxZ, frontImageIndex)` when `z > maxZ && currentState ===
'exploded'`.  The last component of the accumulator records, for
specification purposes, whether that comparison has fired so far. -/
def frontPassStep (msin mcos : ℚ → ℚ) (currentState : DState)
    (treeRotation explodeProgress : ℚ)
    (acc : List Sprite × Option ℚ × ℕ × Bool) (p : ℕ × Sprite) :
    List Sprite × Option ℚ × ℕ × Bool :=
  match p.2.baseAngle with
  | Option.none => (acc.1 ++ [p.2], acc.2.1, acc.2.2.1, acc.2.2.2)
  | some baseAngle =>
    let currentAngle := baseAngle + treeRotation
    let t := easeInOutCubic explodeProgress
    let currentRadius := lerp hiddenRadius orbitRadius t
    let x := mcos currentAngle * currentRadius
    let z := msin currentAngle * currentRadius
    let sprite := { p.2 with posX := x, posY := 0, posZ := z }
    if gtMaxZ z acc.2.1 && decide (currentState = DState.exploded) then
      (acc.1 ++ [sprite], some z, p.1, true)
    else
      (acc.1 ++ [sprite], acc.2.1, acc.2.2.1, acc.2.2.2)

/-- First pass of `updateImageVisibility` over the enumerated sprite array,
starting from `maxZ = -Infinity`, `frontImageIndex = 0`. -/
def frontPass (msin mcos : ℚ → ℚ) (currentState : DState)
    (treeRotation explodeProgress : ℚ) (sprites : List Sprite) :
    List Sprite × Option ℚ × ℕ × Bool :=
  sprites.enum.foldl
    (frontPassStep msin mcos currentState treeRotation explodeProgress)
    ([], Option.none, 0, false)

/-- Embedding of `updateImageVisibility`: run the first pass, overwrite
`selectedImageIndex` with the front index whenever the state is `exploded`,
then run the second pass updating opacity, scale and the `isSelected` flags
against the new `selectedImageIndex`.  Returns the updated sprite array and
the updated `selectedImageIndex`. -/
def updateImageVisibility (msin mcos : ℚ → ℚ) (currentState : DState)
    (treeRotation morphProgress : ℚ) (selectedImageIndex : ℤ)
    (sprites : List Sprite) : List Sprite × ℤ :=
  let explodeProgress := 1 - morphProgress
  let fp := frontPass msin mcos currentState treeRotation explodeProgress sprites
  let frontImageIndex := fp.2.2.1
  let newSelected :=
    if currentState = DState.exploded then (frontImageIndex : ℤ)
    else selectedImageIndex
  let sprites' := fp.1.enum.map (fun p =>
    match p.2.baseAngle with
    | Option.none => p.2
    | some _ =>
      let targetOpacity := if 1/2 < explodeProgress then explodeProgress else 0
      let newOpacity := lerp p.2.opacity targetOpacity (1/10)
      let isFront := decide ((p.1 : ℤ) = newSelected ∧
        currentState = DState.exploded)
      let baseScale := p.2.originalScale * (1/2 + explodeProgress * (1/2))
      let frontBoost : ℚ := if isFront then 3/2 else 1
      let targetScale := baseScale * frontBoost
      let newScale := lerp p.2.scale targetScale (15/100)
      { p.2 with
          opacity := newOpacity
          scale := newScale
          isSelected := isFront })
  (sprites', newSelected)

theorem frontPassStep_foldl_fired_mono (msin mcos : ℚ → ℚ) (cs : DState)
    (rot ep : ℚ) :
    ∀ (l : List (ℕ × Sprite)) (acc : List Sprite × Option ℚ × ℕ × Bool),
      acc.2.2.2 = true →
      (l.foldl (frontPassStep msin mcos cs rot ep) acc).2.2.2 = true := by
  intro l
  induction l with
  | nil => intro acc h; exact h
  | cons p l ih =>
    intro acc h
    rw [List.foldl_cons]
    apply ih
    rw [frontPassStep]
    split
    · exact h
    · dsimp only
      split
      · rfl
      · exact h

/-- If the camera-facing comparison never fires during the scan, the front
index coming out of the fold is the one it started with. -/
theorem frontPassStep_foldl_front_of_not_fired (msin mcos : ℚ → ℚ)
    (cs : DState) (rot ep : ℚ) :
    ∀ (l : List (ℕ × Sprite)) (acc : List Sprite × Option ℚ × ℕ × Bool),
      (l.foldl (frontPassStep msin mcos cs rot ep) acc).2.2.2 = false →
      (l.foldl (frontPassStep msin mcos cs rot ep) acc).2.2.1 = acc.2.2.1 := by
  intro l
  induction l with
  | nil => intro acc _; rfl
  | cons p l ih =>
    intro acc h
    rw [List.foldl_cons] at h ⊢
    have hstep : (frontPassStep msin mcos cs rot ep acc p).2.2.2 = false := by
      by_contra hc
      have : (frontPassStep msin mcos cs rot ep acc p).2.2.2 = true := by
        revert hc; cases (frontPassStep msin mcos cs rot ep acc p).2.2.2 <;> simp
      rw [frontPassStep_foldl_fired_mono msin mcos cs rot ep l _ this] at h
      simp at h
    have hfront : (frontPassStep msin mcos cs rot ep acc p).2.2.1 = acc.2.2.1 := by
      revert hstep
      rw [frontPassStep]
      split
      · intro _; rfl
      · dsimp only
        split
        · intro hfalse; exact absurd hfalse (by simp)
        · intro _; rfl
    rw [ih _ h, hfront]

/-- C7 counterexample: with the sprite array empty, the state `exploded` and
`selectedImageIndex = 3`, the camera-facing comparison fires for no slot,
yet the tick resets `selectedImageIndex` to 0 instead of retaining 3 — the
claim as stated is false on this input. -/
theorem updateImageVisibility_empty_resets :
    (frontPass (fun _ => 0) (fun _ => 0) DState.exploded 0 (1 - 0) []).2.2.2
        = false ∧
    (updateImageVisibility (fun _ => 0) (fun _ => 0) DState.exploded 0 0 3
        []).2 = 0 ∧
    (3 : ℤ) ≠ 0 := by
  refine ⟨rfl, rfl, by decide⟩

/-- C7 amended: on a tick in which no orbit slot satisfies the camera-facing
comparison, `selectedImageIndex` retains its previous value when the state is
not `exploded`; when the state is `exploded` (which, with no slot firing,
only happens when no sprite has a base angle, e.g. an empty array) it is
reset to the initial front index 0 instead. -/
theorem updateImageVisibility_selected_of_no_fire (msin mcos : ℚ → ℚ)
    (cs : DState) (rot mp : ℚ) (sel : ℤ) (sprites : List Sprite)
    (hnot : (frontPass msin mcos cs rot (1 - mp) sprites).2.2.2 = false) :
    (updateImageVisibility msin mcos cs rot mp sel sprites).2 =
      if cs = DState.exploded then 0 else sel := by
  have hfront : (frontPass msin mcos cs rot (1 - mp) sprites).2.2.1 = 0 :=
    frontPassStep_foldl_front_of_not_fired msin mcos cs rot (1 - mp)
      sprites.enum ([], Option.none, 0, false) hnot
  simp only [updateImageVisibility, frontPass] at hfront ⊢
  rw [hfront]
  by_cases h : cs = DState.exploded <;> simp [h]

/-- A sprite as produced by the texture-load callback, with base angle 0. -/
def c7Sprite : Sprite :=
  { baseAngle := some 0, posX := 1/2, posY := 0, posZ := 0, opacity := 1,
    scale := 2, originalScale := 2, isSelected := false }

theorem updateImageVisibility_selected_witness :
    (frontPass (fun _ => 0) (fun _ => 0) DState.tree 0 (1 - 1) [c7Sprite]).2.2.2
        = false ∧
    (updateImageVisibility (fun _ => 0) (fun _ => 0) DState.tree 0 1 7
        [c7Sprite]).2 = 7 :=
  ⟨rfl, by
    have h := updateImageVisibility_selected_of_no_fire (fun _ => 0)
      (fun _ => 0) DState.tree 0 1 7 [c7Sprite] rfl
    simpa using h⟩

/-- The `SAMPLE_IMAGES` url list of `main.js`; only its length (6) feeds the
modelled logic. -/
def SAMPLE_IMAGES : List String :=
  ["../hinh/z7326700462084_d02bb6716052953273e0c6072e069a32.jpg",
   "../hinh/z7326700472056_30571a02816fe4d5e9029c2318ca065c.jpg",
   "../hinh/z7326700472393_39b8d88b7197a04534eb89549af0c5ac.jpg",
   "../hinh/z7326700484819_1e647e5620d79d617e917fa17f47dbf2.jpg",
   "../hinh/z7326728321492_c132391ea28a748af058fb729d9f69c4.jpg",
   "../hinh/z7326728333619_6346659400153bb8dc6273de05342604.jpg"]

theorem length_SAMPLE_IMAGES : SAMPLE_IMAGES.length = 6 := rfl

/-- The mutable global state of `main.js` that the state machine reads and
writes: display states, morph progress, rotation pair, image selection, the
zoomed sprite (by index), the sprite array, the zoom-overlay visibility, and
the tracker's last smoothed gesture (`handTracker.currentGesture`), which
gates delivery of gesture-change events.  The particle/ornament/light arrays
are pure render output (they never feed back into this state) and are treated
separately by `updateParticlePositions`. -/
structure Sys where
  currentState : DState
  previousState : DState
  morphProgress : ℚ
  treeRotation : ℚ
  targetRotation : ℚ
  selectedImageIndex : ℤ
  zoomedSprite : Option ℕ
  sprites : List Sprite
  overlayHidden : Bool
  lastGesture : Gesture
deriving DecidableEq

/-- The initial values of the globals: state `tree`, `morphProgress = 1`,
index 0, no sprites loaded yet, overlay hidden, tracker gesture `none`. -/
def initSys : Sys :=
  { currentState := DState.tree
    previousState := DState.tree
    morphProgress := 1
    treeRotation := 0
    targetRotation := 0
    selectedImageIndex := 0
    zoomedSprite := Option.none
    sprites := []
    overlayHidden := true
    lastGesture := Gesture.none }

/-- Embedding of `unzoomImage`: hide the overlay, clear `zoomedSprite`. -/
def unzoomImage (s : Sys) : Sys :=
  { s with
      overlayHidden := true
      zoomedSprite := Option.none }

/-- The `forEach` of `zoomToNearestImage` looking for the `isSelected`
sprite: repeated overwriting keeps the last one found. -/
def bestSelected (sprites : List Sprite) : Option (ℕ × Sprite) :=
  sprites.enum.foldl
    (fun acc p => if p.2.isSelected then some p else acc) Option.none

/-- The `bestImage` chosen by `zoomToNearestImage`: the `isSelected` sprite,
with fallback to `imageSprites[selectedImageIndex]` when in range. -/
def pickBestImage (s : Sys) : Option (ℕ × Sprite) :=
  match bestSelected s.sprites with
  | some b => some b
  | Option.none =>
    if 0 ≤ s.selectedImageIndex ∧
        s.selectedImageIndex < (s.sprites.length : ℤ) then
      (s.sprites.get? s.selectedImageIndex.toNat).map
        (fun sp => (s.selectedImageIndex.toNat, sp))
    else Option.none

/-- Embedding of `zoomToNearestImage`: no-op when there are no sprites or the
state is already `zoomed`; otherwise zoom to the best image provided its
opacity exceeds 0.3, recording the previous state and the zoomed slot. -/
def zoomToNearestImage (s : Sys) : Sys :=
  if s.sprites.length = 0 then s
  else if s.currentState = DState.zoomed then s
  else
    match pickBestImage s with
    | some b =>
      if 3/10 < b.2.opacity then
        { s with
            previousState := s.currentState
            currentState := DState.zoomed
            zoomedSprite := some b.1
            overlayHidden := false }
      else s
    | Option.none => s

/-- Embedding of `zoomSelectedImage` (keyboard zoom): no-op when there are no
sprites, already zoomed, the index is out of range, or the selected sprite's
opacity is below 0.3. -/
def zoomSelectedImage (s : Sys) : Sys :=
  if s.sprites.length = 0 then s
  else if s.currentState = DState.zoomed then s
  else if ¬ (0 ≤ s.selectedImageIndex ∧
      s.selectedImageIndex < (s.sprites.length : ℤ)) then s
  else
    match s.sprites.get? s.selectedImageIndex.toNat with
    | Option.none => s
    | some sp =>
      if sp.opacity < 3/10 then s
      else
        { s with
            previousState := s.currentState
            currentState := DState.zoomed
            zoomedSprite := some s.selectedImageIndex.toNat
            overlayHidden := false }

/-- Embedding of `handleGestureChange` (the UI-text updates have no state). -/
def handleGestureChange (g : Gesture) (s : Sys) : Sys :=
  match g with
  | Gesture.fist =>
    let s1 := if s.currentState = DState.zoomed then unzoomImage s else s
    { s1 with currentState := DState.tree }
  | Gesture.openHand =>
    let s1 := if s.currentState = DState.zoomed then unzoomImage s else s
    { s1 with
        currentState := DState.exploded
        previousState := DState.exploded }
  | Gesture.ok =>
    if s.currentState = DState.exploded ∨
        s.previousState = DState.exploded then
      zoomToNearestImage s
    else s
  | Gesture.none =>
    if s.currentState = DState.zoomed then
      { unzoomImage s with currentState := s.previousState }
    else s

/-- The keys handled by `setupKeyboardControls`. -/
inductive Key where
  | f
  | o
  | z
  | arrowLeft
  | arrowRight
deriving DecidableEq, Repr

/-- Embedding of the `keydown` handler of `setupKeyboardControls`. -/
def keydown (k : Key) (s : Sys) : Sys :=
  match k with
  | Key.f =>
    let s1 := if s.currentState = DState.zoomed then unzoomImage s else s
    { s1 with currentState := DState.tree }
  | Key.o =>
    let s1 := if s.currentState = DState.zoomed then unzoomImage s else s
    { s1 with
        currentState := DState.exploded
        previousState := DState.exploded }
  | Key.z =>
    if s.currentState = DState.exploded ∨
        s.previousState = DState.exploded then
      zoomSelectedImage s
    else s
  | Key.arrowLeft =>
    if s.currentState = DState.exploded then
      { s with selectedImageIndex := max 0 (s.selectedImageIndex - 1) }
    else { s with targetRotation := s.targetRotation - 1/2 }
  | Key.arrowRight =>
    if s.currentState = DState.exploded then
      { s with selectedImageIndex := min ((SAMPLE_IMAGES.length : ℤ) - 1) (s.selectedImageIndex + 1) }
    else { s with targetRotation := s.targetRotation + 1/2 }

/-- Embedding of the `keyup` handler: releasing Z while zoomed unzooms and
restores the previous state. -/
def keyupZ (s : Sys) : Sys :=
  if s.currentState = DState.zoomed then
    { unzoomImage s with currentState := s.previousState }
  else s

/-- Embedding of the `close-zoom` / overlay-background click handlers: hide
the overlay and set the state to `exploded` unconditionally. -/
def closeZoomClick (s : Sys) : Sys :=
  { s with
      overlayHidden := true
      currentState := DState.exploded }

/-- Embedding of `updateRotation`: the hand x position (when tracking)
advances the rotation target, otherwise auto-rotate does; the displayed
rotation eases toward the target by a fixed factor of 0.1. -/
def updateRotation (hand : Option ℚ) (s : Sys) : Sys :=
  let newTarget :=
    match hand with
    | some x => s.targetRotation + (x - 1/2) * (15/100)
    | Option.none =>
      if CONFIG.autoRotate then s.targetRotation + CONFIG.autoRotateSpeed
      else s.targetRotation
  { s with
      targetRotation := newTarget
      treeRotation := lerp s.treeRotation newTarget (1/10) }

/-- One `animate` tick as it affects the modelled state: advance the morph
progress, run `updateImageVisibility` (with the pre-update `treeRotation`, as
in the source order), then `updateRotation`. -/
def tick (msin mcos : ℚ → ℚ) (hand : Option ℚ) (s : Sys) : Sys :=
  let mp := animateMorphStep s.currentState s.morphProgress
  let uiv := updateImageVisibility msin mcos s.currentState s.treeRotation mp
    s.selectedImageIndex s.sprites
  updateRotation hand
    { s with
        morphProgress := mp
        sprites := uiv.1
        selectedImageIndex := uiv.2 }

/-- A sprite as pushed by the `setupImages` texture-load callback: opacity 0,
scale 2, placed at the hidden radius, not selected.  The base angle in the
source is `(index / imageCount) * 2π`, an irrational number that only ever
flows into `Math.sin`/`Math.cos`; it is therefore taken here as an arbitrary
rational parameter interpreted through the abstract trig functions. -/
def loadedSprite (msin mcos : ℚ → ℚ) (baseAngle : ℚ) : Sprite :=
  { baseAngle := some baseAngle
    posX := mcos baseAngle * hiddenRadius
    posY := 0
    posZ := msin baseAngle * hiddenRadius
    opacity := 0
    scale := 2
    originalScale := 2
    isSelected := false }

/-- The event-step relation of the whole page.  `keyboardMode` records which
control surface is installed: gesture-change events fire only when hand
tracking initialised (`keyboardMode = false`) and then only when the smoothed
gesture differs from the tracker's previous one; the keyboard handlers are
installed only in the fallback path (`keyboardMode = true`).  Overlay clicks,
render ticks (with an arbitrary tracked hand position or none) and
asynchronous texture loads can happen in either mode. -/
inductive Step (msin mcos : ℚ → ℚ) (keyboardMode : Bool) : Sys → Sys → Prop where
  | gesture (g : Gesture) (s : Sys) :
      keyboardMode = false → g ≠ s.lastGesture →
      Step msin mcos keyboardMode s
        { handleGestureChange g s with lastGesture := g }
  | key (k : Key) (s : Sys) : keyboardMode = true →
      Step msin mcos keyboardMode s (keydown k s)
  | keyRelease (s : Sys) : keyboardMode = true →
      Step msin mcos keyboardMode s (keyupZ s)
  | closeClick (s : Sys) :
      Step msin mcos keyboardMode s (closeZoomClick s)
  | frame (hand : Option ℚ) (s : Sys) :
      Step msin mcos keyboardMode s (tick msin mcos hand s)
  | load (a : ℚ) (s : Sys) : s.sprites.length < SAMPLE_IMAGES.length →
      Step msin mcos keyboardMode s
        { s with sprites := s.sprites ++ [loadedSprite msin mcos a] }

/-- States reachable from the initial globals by any event sequence. -/
inductive Reachable (msin mcos : ℚ → ℚ) (keyboardMode : Bool) : Sys → Prop where
  | init : Reachable msin mcos keyboardMode initSys
  | step {s s' : Sys} : Reachable msin mcos keyboardMode s →
      Step msin mcos keyboardMode s s' → Reachable msin mcos keyboardMode s'

theorem zoomToNearestImage_previousState (s : Sys) :
    (zoomToNearestImage s).previousState = s.previousState ∨
    ((zoomToNearestImage s).previousState = s.currentState ∧
      s.currentState ≠ DState.zoomed) := by
  rw [zoomToNearestImage]
  by_cases h0 : s.sprites.length = 0
  · rw [if_pos h0]; left; rfl
  · rw [if_neg h0]
    by_cases h1 : s.currentState = DState.zoomed
    · rw [if_pos h1]; left; rfl
    · rw [if_neg h1]
      cases hpb : pickBestImage s with
      | none => left; rfl
      | some b =>
        dsimp only
        by_cases h2 : 3/10 < b.2.opacity
        · rw [if_pos h2]; right; exact ⟨rfl, h1⟩
        · rw [if_neg h2]; left; rfl

theorem zoomSelectedImage_previousState (s : Sys) :
    (zoomSelectedImage s).previousState = s.previousState ∨
    ((zoomSelectedImage s).previousState = s.currentState ∧
      s.currentState ≠ DState.zoomed) := by
  rw [zoomSelectedImage]
  by_cases h0 : s.sprites.length = 0
  · rw [if_pos h0]; left; rfl
  · rw [if_neg h0]
    by_cases h1 : s.currentState = DState.zoomed
    · rw [if_pos h1]; left; rfl
    · rw [if_neg h1]
      by_cases h2 : ¬ (0 ≤ s.selectedImageIndex ∧
          s.selectedImageIndex < (s.sprites.length : ℤ))
      · rw [if_pos h2]; left; rfl
      · rw [if_neg h2]
        cases hsp : s.sprites.get? s.selectedImageIndex.toNat with
        | none => left; rfl
        | some sp =>
          dsimp only
          by_cases h3 : sp.opacity < 3/10
          · rw [if_pos h3]; left; rfl
          · rw [if_neg h3]; right; exact ⟨rfl, h1⟩

theorem handleGestureChange_previousState (g : Gesture) (s : Sys) :
    (handleGestureChange g s).previousState = s.previousState ∨
    (handleGestureChange g s).previousState = DState.exploded ∨
    ((handleGestureChange g s).previousState = s.currentState ∧
      s.currentState ≠ DState.zoomed) := by
  cases g with
  | fist =>
    left
    by_cases h : s.currentState = DState.zoomed <;>
      simp [handleGestureChange, unzoomImage, h]
  | openHand =>
    right; left
    by_cases h : s.currentState = DState.zoomed <;>
      simp [handleGestureChange, unzoomImage, h]
  | ok =>
    by_cases h : s.currentState = DState.exploded ∨
        s.previousState = DState.exploded
    · rw [show handleGestureChange Gesture.ok s = zoomToNearestImage s from
        by rw [handleGestureChange, if_pos h]]
      rcases zoomToNearestImage_previousState s with h1 | h1
      · left; exact h1
      · right; right; exact h1
    · left
      rw [show handleGestureChange Gesture.ok s = s from
        by rw [handleGestureChange, if_neg h]]
  | none =>
    left
    by_cases h : s.currentState = DState.zoomed <;>
      simp [handleGestureChange, unzoomImage, h]

theorem keydown_previousState (k : Key) (s : Sys) :
    (keydown k s).previousState = s.previousState ∨
    (keydown k s).previousState = DState.exploded ∨
    ((keydown k s).previousState = s.currentState ∧
      s.currentState ≠ DState.zoomed) := by
  cases k with
  | f =>
    left
    by_cases h : s.currentState = DState.zoomed <;>
      simp [keydown, unzoomImage, h]
  | o =>
    right; left
    by_cases h : s.currentState = DState.zoomed <;>
      simp [keydown, unzoomImage, h]
  | z =>
    by_cases h : s.currentState = DState.exploded ∨
        s.previousState = DState.exploded
    · rw [show keydown Key.z s = zoomSelectedImage s from
        by rw [keydown, if_pos h]]
      rcases zoomSelectedImage_previousState s with h1 | h1
      · left; exact h1
      · right; right; exact h1
    · left
      rw [show keydown Key.z s = s from by rw [keydown, if_neg h]]
  | arrowLeft =>
    left
    by_cases h : s.currentState = DState.exploded <;> simp [keydown, h]
  | arrowRight =>
    left
    by_cases h : s.currentState = DState.exploded <;> simp [keydown, h]

theorem tick_previousState (msin mcos : ℚ → ℚ) (hand : Option ℚ) (s : Sys) :
    (tick msin mcos hand s).previousState = s.previousState := rfl

theorem tick_currentState (msin mcos : ℚ → ℚ) (hand : Option ℚ) (s : Sys) :
    (tick msin mcos hand s).currentState = s.currentState := rfl

theorem tick_lastGesture (msin mcos : ℚ → ℚ) (hand : Option ℚ) (s : Sys) :
    (tick msin mcos hand s).lastGesture = s.lastGesture := rfl

theorem reachable_previousState_ne_zoomed_core (msin mcos : ℚ → ℚ)
    (keyboardMode : Bool) (s : Sys)
    (hreach : Reachable msin mcos keyboardMode s) :
    s.previousState ≠ DState.zoomed := by
  induction hreach with
    | init => simp [initSys]
    | step hr hst ih =>
      rename_i t t'
      cases hst with
      | gesture g hkb hg =>
        show (handleGestureChange g t).previousState ≠ DState.zoomed
        rcases handleGestureChange_previousState g t with h | h | ⟨h, hne⟩
        · rw [h]; exact ih
        · rw [h]; simp
        · rw [h]; exact hne
      | key k hkb =>
        rcases keydown_previousState k t with h | h | ⟨h, hne⟩
        · rw [h]; exact ih
        · rw [h]; simp
        · rw [h]; exact hne
      | keyRelease hkb =>
        show (keyupZ t).previousState ≠ DState.zoomed
        rw [keyupZ]
        by_cases h : t.currentState = DState.zoomed <;>
          simp [h, unzoomImage] <;> exact ih
      | closeClick => exact ih
      | frame hand => rw [tick_previousState]; exact ih
      | load a hlen => exact ih

/-- C9: in every reachable state `previousState` is never `zoomed` — each
assignment to it stores either the literal `exploded` or the current state
under an early-return guard excluding `zoomed`; consequently both unzoom
paths (`none` gesture and Z-key release), which restore
`currentState = previousState`, always restore a non-zoomed state. -/
theorem reachable_previousState_ne_zoomed (msin mcos : ℚ → ℚ)
    (keyboardMode : Bool) (s : Sys)
    (hreach : Reachable msin mcos keyboardMode s) :
    s.previousState ≠ DState.zoomed ∧
    (s.currentState = DState.zoomed →
      (handleGestureChange Gesture.none s).currentState ≠ DState.zoomed ∧
      (keyupZ s).currentState ≠ DState.zoomed) := by
  have hmain := reachable_previousState_ne_zoomed_core msin mcos
    keyboardMode s hreach
  refine ⟨hmain, fun hz => ⟨?_, ?_⟩⟩
  · have h : handleGestureChange Gesture.none s =
        (if s.currentState = DState.zoomed then
          { unzoomImage s with currentState := s.previousState }
        else s) := rfl
    rw [h, if_pos hz]
    exact hmain
  · rw [keyupZ, if_pos hz]
    exact hmain

theorem reachable_previousState_ne_zoomed_witness :
    initSys.previousState ≠ DState.zoomed :=
  (reachable_previousState_ne_zoomed (fun _ => 0) (fun _ => 0) false initSys
    Reachable.init).1

/-- In gesture mode the only transition that leaves `currentState = zoomed`
in place is the `ok` event itself, so a zoomed state always carries
`lastGesture = ok`; since gesture-change events only fire for a gesture
different from `lastGesture`, an `ok` event can never find the state already
zoomed. -/
theorem reachable_zoomed_lastGesture (msin mcos : ℚ → ℚ) (s : Sys)
    (hreach : Reachable msin mcos false s) :
    s.currentState = DState.zoomed → s.lastGesture = Gesture.ok := by
  induction hreach with
  | init => intro hz; simp [initSys] at hz
  | step hr hst ih =>
    rename_i t t'
    cases hst with
    | gesture g hkb hg =>
      intro hz
      have hprev : t.previousState ≠ DState.zoomed :=
        reachable_previousState_ne_zoomed_core msin mcos false t hr
      show g = Gesture.ok
      have hz' : (handleGestureChange g t).currentState = DState.zoomed := hz
      cases g with
      | fist =>
        exfalso
        have h1 : (handleGestureChange Gesture.fist t).currentState =
            DState.tree := rfl
        rw [h1] at hz'
        exact DState.noConfusion hz'
      | openHand =>
        exfalso
        have h1 : (handleGestureChange Gesture.openHand t).currentState =
            DState.exploded := rfl
        rw [h1] at hz'
        exact DState.noConfusion hz'
      | ok => rfl
      | none =>
        exfalso
        have h1 : handleGestureChange Gesture.none t =
            (if t.currentState = DState.zoomed then
              { unzoomImage t with currentState := t.previousState }
            else t) := rfl
        rw [h1] at hz'
        by_cases h : t.currentState = DState.zoomed
        · rw [if_pos h] at hz'
          exact hprev hz'
        · rw [if_neg h] at hz'
          exact h hz'
    | key k =>
      rename_i hkb
      simp at hkb
    | keyRelease =>
      rename_i hkb
      simp at hkb
    | closeClick =>
      intro hz
      simp [closeZoomClick] at hz
    | frame hand =>
      intro hz
      rw [tick_currentState] at hz
      rw [tick_lastGesture]
      exact ih hz
    | load a hlen =>
      intro hz
      exact ih hz

theorem pickBestImage_of_length_zero (s : Sys) (h : s.sprites.length = 0) :
    pickBestImage s = Option.none := by
  have hnil : s.sprites = [] := List.length_eq_zero.mp h
  rw [pickBestImage, hnil]
  have hbs : bestSelected [] = Option.none := rfl
  rw [hbs]
  rw [if_neg]
  simp only [List.length_nil, Int.ofNat_zero]
  omega

/-- C4: whenever an `ok` gesture-change event can fire (the tracker's last
gesture is not already `ok`) in a reachable gesture-mode state, it produces a
transition to `zoomed` exactly when (a) current or previous state is
`exploded` and (b) the selected sprite — the `isSelected` one or the fallback
at `selectedImageIndex` — exists with opacity above 0.3; a successful
transition records `previousState = currentState` and the zoomed slot, and a
failed condition leaves every state variable unchanged. -/
theorem ok_event_zoom_iff (msin mcos : ℚ → ℚ) (s : Sys)
    (hreach : Reachable msin mcos false s)
    (henabled : Gesture.ok ≠ s.lastGesture) :
    ((handleGestureChange Gesture.ok s).currentState = DState.zoomed ↔
      ((s.currentState = DState.exploded ∨ s.previousState = DState.exploded) ∧
        ∃ b, pickBestImage s = some b ∧ 3/10 < b.2.opacity)) ∧
    (((s.currentState = DState.exploded ∨ s.previousState = DState.exploded) ∧
        ∃ b, pickBestImage s = some b ∧ 3/10 < b.2.opacity) →
      ((handleGestureChange Gesture.ok s).previousState = s.currentState ∧
        ∃ b, pickBestImage s = some b ∧
          (handleGestureChange Gesture.ok s).zoomedSprite = some b.1)) ∧
    (¬ ((s.currentState = DState.exploded ∨ s.previousState = DState.exploded) ∧
        ∃ b, pickBestImage s = some b ∧ 3/10 < b.2.opacity) →
      handleGestureChange Gesture.ok s = s) := by
  have hcur : s.currentState ≠ DState.zoomed := by
    intro hz
    exact henabled (reachable_zoomed_lastGesture msin mcos s hreach hz).symm
  by_cases hguard : s.currentState = DState.exploded ∨
      s.previousState = DState.exploded
  · have hok : handleGestureChange Gesture.ok s = zoomToNearestImage s := by
      rw [handleGestureChange, if_pos hguard]
    by_cases h0 : s.sprites.length = 0
    · have hz : zoomToNearestImage s = s := by
        rw [zoomToNearestImage, if_pos h0]
      have hpb := pickBestImage_of_length_zero s h0
      refine ⟨?_, ?_, fun _ => by rw [hok, hz]⟩
      · rw [hok, hz]
        simp [hpb, hcur]
      · rintro ⟨-, b, hb, -⟩
        rw [hpb] at hb
        exact absurd hb (by simp)
    · have hz : zoomToNearestImage s =
          (match pickBestImage s with
           | some b =>
             if 3/10 < b.2.opacity then
               { s with
                   previousState := s.currentState
                   currentState := DState.zoomed
                   zoomedSprite := some b.1
                   overlayHidden := false }
             else s
           | Option.none => s) := by
        rw [zoomToNearestImage, if_neg h0, if_neg hcur]
      rcases Option.eq_none_or_eq_some (pickBestImage s) with hpb | ⟨b, hpb⟩
      · have hzz : zoomToNearestImage s = s := by rw [hz, hpb]
        refine ⟨?_, ?_, fun _ => by rw [hok, hzz]⟩
        · rw [hok, hzz]
          constructor
          · intro h; exact absurd h hcur
          · rintro ⟨-, b, hb, -⟩
            rw [hpb] at hb
            exact Option.noConfusion hb
        · rintro ⟨-, b, hb, -⟩
          rw [hpb] at hb
          exact Option.noConfusion hb
      · by_cases hop : 3/10 < b.2.opacity
        · have hzz : zoomToNearestImage s =
              { s with
                  previousState := s.currentState
                  currentState := DState.zoomed
                  zoomedSprite := some b.1
                  overlayHidden := false } := by
            rw [hz, hpb]; dsimp only; rw [if_pos hop]
          refine ⟨?_, fun _ => ?_, fun hn => absurd ⟨hguard, b, hpb, hop⟩ hn⟩
          · rw [hok, hzz]
            exact Iff.intro (fun _ => ⟨hguard, b, hpb, hop⟩) (fun _ => rfl)
          · rw [hok, hzz]
            exact ⟨rfl, b, hpb, rfl⟩
        · have hzz : zoomToNearestImage s = s := by
            rw [hz, hpb]; dsimp only; rw [if_neg hop]
          refine ⟨?_, ?_, fun _ => by rw [hok, hzz]⟩
          · rw [hok, hzz]
            constructor
            · intro h; exact absurd h hcur
            · rintro ⟨-, b', hb', hop'⟩
              rw [hpb] at hb'
              have hbb : b = b' := by injection hb'
              rw [← hbb] at hop'
              exact absurd hop' hop
          · rintro ⟨-, b', hb', hop'⟩
            rw [hpb] at hb'
            have hbb : b = b' := by injection hb'
            rw [← hbb] at hop'
            exact absurd hop' hop
  · have hok : handleGestureChange Gesture.ok s = s := by
      rw [handleGestureChange, if_neg hguard]
    refine ⟨?_, ?_, fun _ => hok⟩
    · rw [hok]
      constructor
      · intro h; exact absurd h hcur
      · rintro ⟨hg, -⟩; exact absurd hg hguard
    · rintro ⟨hg, -⟩; exact absurd hg hguard

theorem ok_event_zoom_iff_witness :
    handleGestureChange Gesture.ok initSys = initSys :=
  (ok_event_zoom_iff (fun _ => 0) (fun _ => 0) initSys Reachable.init
      (by simp [initSys])).2.2
    (by
      rintro ⟨-, b, hb, -⟩
      rw [pickBestImage_of_length_zero initSys rfl] at hb
      exact absurd hb (by simp))

theorem zoomSelectedImage_selectedImageIndex (s : Sys) :
    (zoomSelectedImage s).selectedImageIndex = s.selectedImageIndex := by
  rw [zoomSelectedImage]
  by_cases h0 : s.sprites.length = 0
  · rw [if_pos h0]
  · rw [if_neg h0]
    by_cases h1 : s.currentState = DState.zoomed
    · rw [if_pos h1]
    · rw [if_neg h1]
      by_cases h2 : ¬ (0 ≤ s.selectedImageIndex ∧
          s.selectedImageIndex < (s.sprites.length : ℤ))
      · rw [if_pos h2]
      · rw [if_neg h2]
        cases s.sprites.get? s.selectedImageIndex.toNat with
        | none => rfl
        | some sp =>
          dsimp only
          by_cases h3 : sp.opacity < 3/10
          · rw [if_pos h3]
          · rw [if_neg h3]

theorem keydown_selectedImageIndex_bounds (k : Key) (s : Sys)
    (h0 : 0 ≤ s.selectedImageIndex)
    (h1 : s.selectedImageIndex ≤ (SAMPLE_IMAGES.length : ℤ) - 1) :
    0 ≤ (keydown k s).selectedImageIndex ∧
    (keydown k s).selectedImageIndex ≤ (SAMPLE_IMAGES.length : ℤ) - 1 := by
  have h6 : ((SAMPLE_IMAGES.length : ℕ) : ℤ) = 6 := by
    rw [length_SAMPLE_IMAGES]; rfl
  cases k with
  | f =>
    have h : (keydown Key.f s).selectedImageIndex =
        (if s.currentState = DState.zoomed then unzoomImage s
         else s).selectedImageIndex := rfl
    rw [h]
    split
    · exact ⟨h0, h1⟩
    · exact ⟨h0, h1⟩
  | o =>
    have h : (keydown Key.o s).selectedImageIndex =
        (if s.currentState = DState.zoomed then unzoomImage s
         else s).selectedImageIndex := rfl
    rw [h]
    split
    · exact ⟨h0, h1⟩
    · exact ⟨h0, h1⟩
  | z =>
    have h : keydown Key.z s =
        (if s.currentState = DState.exploded ∨
            s.previousState = DState.exploded then
          zoomSelectedImage s
        else s) := rfl
    rw [h]
    split
    · rw [zoomSelectedImage_selectedImageIndex]; exact ⟨h0, h1⟩
    · exact ⟨h0, h1⟩
  | arrowLeft =>
    have h : (keydown Key.arrowLeft s).selectedImageIndex =
        (if s.currentState = DState.exploded then
          max 0 (s.selectedImageIndex - 1)
        else s.selectedImageIndex) := by
      show ((if s.currentState = DState.exploded then
          { s with selectedImageIndex := max 0 (s.selectedImageIndex - 1) }
        else { s with targetRotation := s.targetRotation - 1/2 }) :
          Sys).selectedImageIndex = _
      split <;> rfl
    rw [h]
    split
    · omega
    · exact ⟨h0, h1⟩
  | arrowRight =>
    have h : (keydown Key.arrowRight s).selectedImageIndex =
        (if s.currentState = DState.exploded then
          min ((SAMPLE_IMAGES.length : ℤ) - 1) (s.selectedImageIndex + 1)
        else s.selectedImageIndex) := by
      show ((if s.currentState = DState.exploded then
          { s with selectedImageIndex := min ((SAMPLE_IMAGES.length : ℤ) - 1) (s.selectedImageIndex + 1) }
        else { s with targetRotation := s.targetRotation + 1/2 }) :
          Sys).selectedImageIndex = _
      split <;> rfl
    rw [h]
    split
    · omega
    · exact ⟨h0, h1⟩

/-- C8: with `selectedImageIndex` starting anywhere in `[0, imageCount − 1]`
(`imageCount = SAMPLE_IMAGES.length = 6`), any sequence of key events keeps
it in that range; in particular select-previous at index 0 leaves it at 0 and
select-next at the last index leaves it there, while the state is
`exploded`. -/
theorem keydown_selectedImageIndex_clamped (s : Sys)
    (h0 : 0 ≤ s.selectedImageIndex)
    (h1 : s.selectedImageIndex ≤ (SAMPLE_IMAGES.length : ℤ) - 1) :
    (∀ ks : List Key,
      0 ≤ (ks.foldl (fun st k => keydown k st) s).selectedImageIndex ∧
      (ks.foldl (fun st k => keydown k st) s).selectedImageIndex ≤
        (SAMPLE_IMAGES.length : ℤ) - 1) ∧
    (s.currentState = DState.exploded → s.selectedImageIndex = 0 →
      (keydown Key.arrowLeft s).selectedImageIndex = 0) ∧
    (s.currentState = DState.exploded →
      s.selectedImageIndex = (SAMPLE_IMAGES.length : ℤ) - 1 →
      (keydown Key.arrowRight s).selectedImageIndex =
        (SAMPLE_IMAGES.length : ℤ) - 1) := by
  refine ⟨?_, ?_, ?_⟩
  · intro ks
    induction ks generalizing s with
    | nil => exact ⟨h0, h1⟩
    | cons k ks ih =>
      rw [List.foldl_cons]
      have hb := keydown_selectedImageIndex_bounds k s h0 h1
      exact ih (keydown k s) hb.1 hb.2
  · intro hcur hidx
    have h : keydown Key.arrowLeft s =
        (if s.currentState = DState.exploded then
          { s with selectedImageIndex := max 0 (s.selectedImageIndex - 1) }
        else { s with targetRotation := s.targetRotation - 1/2 }) := rfl
    rw [h, if_pos hcur]
    show max 0 (s.selectedImageIndex - 1) = 0
    rw [hidx]
    rfl
  · intro hcur hidx
    have h : keydown Key.arrowRight s =
        (if s.currentState = DState.exploded then
          { s with selectedImageIndex := min ((SAMPLE_IMAGES.length : ℤ) - 1) (s.selectedImageIndex + 1) }
        else { s with targetRotation := s.targetRotation + 1/2 }) := rfl
    rw [h, if_pos hcur]
    show min ((SAMPLE_IMAGES.length : ℤ) - 1)
        (s.selectedImageIndex + 1) = (SAMPLE_IMAGES.length : ℤ) - 1
    rw [hidx]
    apply min_eq_left
    omega

theorem keydown_selectedImageIndex_clamped_witness :
    (0 ≤ initSys.selectedImageIndex ∧
      initSys.selectedImageIndex ≤ (SAMPLE_IMAGES.length : ℤ) - 1) ∧
    (0 ≤ ([Key.arrowLeft, Key.arrowRight, Key.o,
        Key.arrowLeft].foldl (fun st k => keydown k st)
          initSys).selectedImageIndex ∧
      ([Key.arrowLeft, Key.arrowRight, Key.o,
        Key.arrowLeft].foldl (fun st k => keydown k st)
          initSys).selectedImageIndex ≤ (SAMPLE_IMAGES.length : ℤ) - 1) :=
  ⟨⟨by simp [initSys], by simp [initSys, SAMPLE_IMAGES]⟩,
    (keydown_selectedImageIndex_clamped initSys (by simp [initSys])
        (by simp [initSys, SAMPLE_IMAGES])).1
      [Key.arrowLeft, Key.arrowRight, Key.o, Key.arrowLeft]⟩

/-- A concrete interpretation of the abstract trig parameters (the constant
zero function); any interpretation yields a run of the model. -/
def zeroFn : ℚ → ℚ := fun _ => 0

/-- State after the first texture-load callback. -/
def c10Load : Sys :=
  { initSys with sprites := initSys.sprites ++ [loadedSprite zeroFn zeroFn 0] }

/-- State after pressing `o` (explode). -/
def c10Open : Sys := keydown Key.o c10Load

/-- States along a run of `n` render ticks after exploding. -/
def c10Ticks : ℕ → Sys
  | 0 => c10Open
  | n + 1 => tick zeroFn zeroFn Option.none (c10Ticks n)

/-- State after 14 ticks, then pressing `f` (tree) and `z` (zoom). -/
def c10Final : Sys := keydown Key.z (keydown Key.f (c10Ticks 14))

theorem c10Ticks_reachable (n : ℕ) :
    Reachable zeroFn zeroFn true (c10Ticks n) := by
  induction n with
  | zero =>
    have h1 : Reachable zeroFn zeroFn true c10Load :=
      Reachable.step Reachable.init (Step.load 0 initSys (by decide))
    exact Reachable.step h1 (Step.key Key.o c10Load rfl)
  | succ n ih =>
    exact Reachable.step ih (Step.frame Option.none (c10Ticks n))

theorem c10Final_reachable : Reachable zeroFn zeroFn true c10Final :=
  Reachable.step
    (Reachable.step (c10Ticks_reachable 14) (Step.key Key.f _ rfl))
    (Step.key Key.z _ rfl)

/-- Shape invariant along the exploded run: exploded state, one sprite of
base angle 0, known morph progress and opacity, selection at index 0. -/
def C10Inv (s : Sys) (mp op : ℚ) : Prop :=
  s.currentState = DState.exploded ∧ s.previousState = DState.exploded ∧
  s.morphProgress = mp ∧ s.selectedImageIndex = 0 ∧
  ∃ sp : Sprite, s.sprites = [sp] ∧ sp.baseAngle = some 0 ∧ sp.opacity = op

theorem C10Inv_tick {s : Sys} {mp op : ℚ} (h : C10Inv s mp op)
    (hge : 6/100 ≤ mp) :
    C10Inv (tick zeroFn zeroFn Option.none s) (mp - 6/100)
      (lerp op (if 1/2 < 1 - (mp - 6/100) then 1 - (mp - 6/100) else 0)
        (1/10)) := by
  obtain ⟨hcur, hprev, hmp, hsel, sp, hsp, hang, hop⟩ := h
  obtain ⟨ba, px, py, pz, oo, sc, osc, isel⟩ := sp
  dsimp only at hang hop
  subst hang
  subst hop
  subst hmp
  have hstep : animateMorphStep s.currentState s.morphProgress =
      s.morphProgress - 6/100 := by
    rw [hcur]
    show max 0 (s.morphProgress - CONFIG.transitionSpeed) = _
    rw [show CONFIG.transitionSpeed = 6/100 from rfl]
    exact max_eq_right (by linarith)
  refine ⟨?_, ?_, ?_, ?_, ?_⟩
  · rw [tick_currentState]; exact hcur
  · rw [tick_previousState]; exact hprev
  · show animateMorphStep s.currentState s.morphProgress = _
    exact hstep
  · show (updateImageVisibility zeroFn zeroFn s.currentState s.treeRotation
        (animateMorphStep s.currentState s.morphProgress)
        s.selectedImageIndex s.sprites).2 = 0
    rw [hstep, hcur, hsel, hsp]
    rfl
  · show ∃ sp₂ : Sprite,
        (updateImageVisibility zeroFn zeroFn s.currentState s.treeRotation
          (animateMorphStep s.currentState s.morphProgress)
          s.selectedImageIndex s.sprites).1 = [sp₂] ∧
        sp₂.baseAngle = some 0 ∧
        sp₂.opacity = lerp oo
          (if 1/2 < 1 - (s.morphProgress - 6/100)
           then 1 - (s.morphProgress - 6/100) else 0) (1/10)
    rw [hstep, hcur, hsel, hsp]
    exact ⟨_, rfl, rfl, rfl⟩

theorem keydown_f_not_zoomed {s : Sys} (h : s.currentState ≠ DState.zoomed) :
    keydown Key.f s = { s with currentState := DState.tree } := by
  show ({ (if s.currentState = DState.zoomed then unzoomImage s else s) with
      currentState := DState.tree } : Sys) = _
  rw [if_neg h]

theorem c10Final_states :
    c10Final.previousState = DState.tree ∧
    c10Final.currentState = DState.zoomed := by
  have h0 : C10Inv c10Open 1 0 := ⟨rfl, rfl, rfl, rfl,
    loadedSprite zeroFn zeroFn 0, rfl, rfl, rfl⟩
  have h1 := C10Inv_tick h0 (by norm_num)
  norm_num [lerp] at h1
  have h2 := C10Inv_tick h1 (by norm_num)
  norm_num [lerp] at h2
  have h3 := C10Inv_tick h2 (by norm_num)
  norm_num [lerp] at h3
  have h4 := C10Inv_tick h3 (by norm_num)
  norm_num [lerp] at h4
  have h5 := C10Inv_tick h4 (by norm_num)
  norm_num [lerp] at h5
  have h6 := C10Inv_tick h5 (by norm_num)
  norm_num [lerp] at h6
  have h7 := C10Inv_tick h6 (by norm_num)
  norm_num [lerp] at h7
  have h8 := C10Inv_tick h7 (by norm_num)
  norm_num [lerp] at h8
  have h9 := C10Inv_tick h8 (by norm_num)
  norm_num [lerp] at h9
  have h10 := C10Inv_tick h9 (by norm_num)
  norm_num [lerp] at h10
  have h11 := C10Inv_tick h10 (by norm_num)
  norm_num [lerp] at h11
  have h12 := C10Inv_tick h11 (by norm_num)
  norm_num [lerp] at h12
  have h13 := C10Inv_tick h12 (by norm_num)
  norm_num [lerp] at h13
  have h14' := C10Inv_tick h13 (by norm_num)
  norm_num [lerp] at h14'
  have h14 : C10Inv (c10Ticks 14) (4/25) (16594323/50000000) := h14'
  obtain ⟨hcur, hprev, hmp, hsel, sp, hsp, hang, hop⟩ := h14
  have hcurne : (c10Ticks 14).currentState ≠ DState.zoomed := by
    rw [hcur]; simp
  have hF : keydown Key.f (c10Ticks 14) =
      { c10Ticks 14 with currentState := DState.tree } :=
    keydown_f_not_zoomed hcurne
  have hfinal : c10Final =
      keydown Key.z ({ c10Ticks 14 with currentState := DState.tree } : Sys) := by
    rw [c10Final, hF]
  set sF : Sys := { c10Ticks 14 with currentState := DState.tree } with hsF
  have hguard : sF.currentState = DState.exploded ∨
      sF.previousState = DState.exploded := Or.inr hprev
  have hz1 : keydown Key.z sF = zoomSelectedImage sF := by
    show (if sF.currentState = DState.exploded ∨
        sF.previousState = DState.exploded then zoomSelectedImage sF
      else sF) = _
    rw [if_pos hguard]
  have hlen : ¬ sF.sprites.length = 0 := by
    show ¬ (c10Ticks 14).sprites.length = 0
    rw [hsp]; simp
  have hcurF : ¬ sF.currentState = DState.zoomed := by simp [hsF]
  have hbounds : ¬ ¬ (0 ≤ sF.selectedImageIndex ∧
      sF.selectedImageIndex < (sF.sprites.length : ℤ)) := by
    have hs1 : sF.selectedImageIndex = 0 := hsel
    have hs2 : sF.sprites = [sp] := hsp
    rw [hs1, hs2]
    simp
  have hget : sF.sprites.get? sF.selectedImageIndex.toNat = some sp := by
    have hs1 : sF.selectedImageIndex = 0 := hsel
    have hs2 : sF.sprites = [sp] := hsp
    rw [hs1, hs2]
    rfl
  have hzoom : zoomSelectedImage sF =
      { sF with
          previousState := sF.currentState
          currentState := DState.zoomed
          zoomedSprite := some sF.selectedImageIndex.toNat
          overlayHidden := false } := by
    rw [zoomSelectedImage, if_neg hlen, if_neg hcurF, if_neg hbounds, hget]
    dsimp only
    rw [if_neg (by rw [hop]; norm_num)]
  constructor
  · rw [hfinal, hz1, hzoom]
  · rw [hfinal, hz1, hzoom]

/-- C10: closing the zoom overlay (close button or background click) sets
`currentState` to `exploded` unconditionally, regardless of the recorded
`previousState` — unlike the `none`-gesture and Z-key-release handlers, which
restore `currentState = previousState`; and there is a reachable state with
`previousState = tree` and `currentState = zoomed` in which a close-click
therefore leaves the system in `exploded` rather than `tree`. -/
theorem closeZoom_forces_exploded :
    (∀ s : Sys, (closeZoomClick s).currentState = DState.exploded) ∧
    (∀ s : Sys, s.currentState = DState.zoomed →
      (handleGestureChange Gesture.none s).currentState = s.previousState) ∧
    (∀ s : Sys, s.currentState = DState.zoomed →
      (keyupZ s).currentState = s.previousState) ∧
    (∃ s : Sys, Reachable zeroFn zeroFn true s ∧
      s.previousState = DState.tree ∧ s.currentState = DState.zoomed ∧
      (closeZoomClick s).currentState = DState.exploded ∧
      (closeZoomClick s).currentState ≠ s.previousState) := by
  refine ⟨fun s => rfl, ?_, ?_, ?_⟩
  · intro s hz
    have h : handleGestureChange Gesture.none s =
        (if s.currentState = DState.zoomed then
          { unzoomImage s with currentState := s.previousState }
        else s) := rfl
    rw [h, if_pos hz]
  · intro s hz
    rw [keyupZ, if_pos hz]
  · refine ⟨c10Final, c10Final_reachable, c10Final_states.1,
      c10Final_states.2, rfl, ?_⟩
    rw [c10Final_states.1]
    exact fun hc => DState.noConfusion hc

theorem closeZoom_forces_exploded_witness :
    ({ initSys with currentState := DState.zoomed } : Sys).currentState =
        DState.zoomed ∧
    (handleGestureChange Gesture.none
        ({ initSys with currentState := DState.zoomed } : Sys)).currentState =
      ({ initSys with currentState := DState.zoomed } : Sys).previousState :=
  ⟨rfl, closeZoom_forces_exploded.2.1 _ rfl⟩

theorem detectGesture_count_dispatch_witness :
    isOKGesture fistFrame (getFingersExtended fistFrame) = false ∧
    extendedCount fistFrame ≤ 1 ∧
    detectGesture fistFrame = Gesture.fist :=
  ⟨by norm_num [isOKGesture, getFingersExtended, fistFrame],
    by norm_num [extendedCount, getFingersExtended, fistFrame],
    (detectGesture_count_dispatch fistFrame
        (by norm_num [isOKGesture, getFingersExtended, fistFrame])).1
      (by norm_num [extendedCount, getFingersExtended, fistFrame])⟩

end Noel
